import Mathlib

/-!
Verification of the Python-Helper repository against its specification.

This file gives a shallow embedding in Lean 4 of the parts of the
repository that the spec's claims are about:

* `scripts/automated-tasks/run_pendingReports_task.py` — the pending-reports
  alert job (`read_last_alert_state`, `write_alert_state`, and the alert
  branch of `main`);
* `python_helpers/utilities/__init__.py` — `clean_filename`, `chunk_list`,
  `retry_operation`;
* `python_helpers/file_ops/__init__.py` — `read_json`, `write_json`,
  `get_file_info`, `safe_copy`;
* `python_helpers/data_processing/__init__.py` — `csv_to_dict`, `dict_to_csv`;
* `python_helpers/web_scraping/__init__.py` — `safe_request`, `download_file`.

Effectful Python code is embedded by passing the outcome of each external
I/O operation (file system, network, SMTP) explicitly as an `Except`-valued
argument or as part of a small state type, and recording the effects the
code performs (emails sent, file writes) in the result.
-/

namespace PythonHelper

/-! ## Python string primitives

`str.strip(chars)` removes, from both ends of the string, the longest runs
of characters belonging to `chars`.  `str.strip()` with no argument uses
whitespace.  We model strings as `List Char` processed by
`List.dropWhile` (left end) and `List.rdropWhile` (right end).
-/

/-- The character set of Python `str.strip()` without arguments
(ASCII whitespace; the rare non-ASCII whitespace code points are not
relevant to the strings this repository manipulates). -/
def pyWhitespace : List Char := [' ', '\t', '\n', '\r', '\x0b', '\x0c']

/-- Python `s.strip(chars)`: drop the characters of `chars` from both ends. -/
def pyStrip (chars : List Char) (s : String) : String :=
  String.mk (List.rdropWhile (fun c => decide (c ∈ chars))
    (List.dropWhile (fun c => decide (c ∈ chars)) s.toList))

/-- Python `s.strip()` (no argument): strip whitespace from both ends. -/
def pyStripWs (s : String) : String := pyStrip pyWhitespace s

/-! ## The pending-reports job (`run_pendingReports_task.py`)

The job's only persistent state is the file `alert_state.txt`.  A file can
be absent, unreadable (an `open`/`read` raising an exception, which
`read_last_alert_state` catches), or have some string content.  A run of
the job obtains a list of pending-report record groups from the database,
sums their counts, and then executes the alert branch of `main`
(lines 347–366), sending emails and writing the state file.
-/

/-- The possible conditions of the state file as seen by the job. -/
inductive FileState where
  | absent
  | unreadable
  | content (s : String)
deriving DecidableEq

/-- One row group returned by the SQL query of
`get_pending_records_from_database`.  `count_reports` comes from SQL
`COUNT(*)`, a nonnegative integer. -/
structure PendingRecord where
  tool_id : String
  product_name : String
  count_reports : Nat
  status_text : String

/-- The running total accumulated over the rows
(`total_count += count_reports` in `get_pending_records_from_database`). -/
def totalCount (records : List PendingRecord) : Nat :=
  (records.map (fun r => r.count_reports)).sum

/-- `read_last_alert_state`: return the stripped file content; default to
`"NORMAL"` when the file is absent or reading raises an exception. -/
def read_last_alert_state : FileState → String
  | FileState.absent => "NORMAL"
  | FileState.unreadable => "NORMAL"
  | FileState.content s => pyStripWs s

/-- The externally visible effects of one run of `main`'s alert branch:
the alert types of the email reports sent (in order), and the string
written to the state file by `write_alert_state`, if any. -/
structure RunEffects where
  emails : List String
  stateWrite : Option String
deriving DecidableEq

/-- The alert branch of `main` (lines 347–366): decide the current state
from the total count and the threshold, send a WARNING or RECOVERY email
when required, and write the state file.  `total` is a Python `int`; the
code compares it both against `ALERT_THRESHOLD` and against `0`. -/
def mainStep (threshold total : Int) (lastState : String) : RunEffects :=
  if total > threshold then
    { emails := ["WARNING"], stateWrite := some "WARNING" }
  else if total ≤ threshold ∧ total ≥ 0 then
    if lastState = "WARNING" then
      { emails := ["RECOVERY"], stateWrite := some "NORMAL" }
    else
      { emails := [], stateWrite := none }
  else
    { emails := [], stateWrite := none }

/-- Effect of `write_alert_state` on the file: writing replaces the file's
content (a run that performs no write leaves the file untouched). -/
def applyWrite (f : FileState) : Option String → FileState
  | none => f
  | some s => FileState.content s

/-- One full run of the job against a state file, given the total count
the database query returned: read the last state, run the alert branch,
apply its write. -/
def runJob (threshold : Int) (f : FileState) (total : Int) : FileState :=
  applyWrite f (mainStep threshold total (read_last_alert_state f)).stateWrite

/-- A sequence of runs, one per database total observed. -/
def runJobs (threshold : Int) (f : FileState) (totals : List Int) : FileState :=
  totals.foldl (runJob threshold) f

/-- The states the spec's data model allows for the alert file: absent
(first ever run) or holding exactly one of the two state strings. -/
def alertFileOk (f : FileState) : Prop :=
  f = FileState.absent ∨ f = FileState.content "NORMAL" ∨
    f = FileState.content "WARNING"

instance (f : FileState) : Decidable (alertFileOk f) := by
  unfold alertFileOk; infer_instance

/-! ## `retry_operation` (`python_helpers/utilities`)

`retry_operation(func, max_attempts, delay, backoff)` loops over
`attempt in range(max_attempts)`: it calls `func()`, returns its value on
success; on an exception it sleeps `delay` seconds and multiplies `delay`
by `backoff` when the attempt is not the last, and re-raises the last
exception otherwise.  We pass the outcome of each `func()` call as
`outcomes attempt`, model delays as exact rationals, and record the sleeps
performed.  The result is `none` exactly in Python's implicit-`None` case
(`max_attempts = 0`, where the loop body never runs).
-/

/-- The retry loop from a given attempt index, with `remaining` iterations
left and the current `delay`.  Returns the final outcome and the list of
sleeps performed. -/
def retryFrom {E A : Type} (outcomes : Nat → Except E A) (backoff : ℚ) :
    Nat → Nat → ℚ → Option (Except E A) × List ℚ
  | _, 0, _ => (none, [])
  | attempt, 1, _ => (some (outcomes attempt), [])
  | attempt, n + 2, delay =>
    match outcomes attempt with
    | Except.ok a => (some (Except.ok a), [])
    | Except.error _ =>
      let r := retryFrom outcomes backoff (attempt + 1) (n + 1) (delay * backoff)
      (r.1, delay :: r.2)

/-- `retry_operation`: run the loop from attempt 0. -/
def retry_operation {E A : Type} (outcomes : Nat → Except E A)
    (max_attempts : Nat) (delay backoff : ℚ) : Option (Except E A) × List ℚ :=
  retryFrom outcomes backoff 0 max_attempts delay

/-! ## `chunk_list` (`python_helpers/utilities`) -/

/-- Python `range(start, stop, step)` for a positive step, written with
explicit fuel; `fuel = stop` is enough when `start = 0` and `step ≥ 1`. -/
def rangeStepAux (step : Nat) : Nat → Nat → Nat → List Nat
  | 0, _, _ => []
  | fuel + 1, start, stop =>
    if start < stop then start :: rangeStepAux step fuel (start + step) stop else []

/-- Python `range(start, stop, step)` with positive `step`. -/
def rangeStep (start stop step : Nat) : List Nat :=
  rangeStepAux step stop start stop

/-- Python slice `lst[i : i + k]` for nonnegative bounds. -/
def pySlice {α : Type} (lst : List α) (i k : Nat) : List α :=
  (lst.drop i).take k

/-- `chunk_list`: `[lst[i:i + chunk_size] for i in range(0, len(lst), chunk_size)]`.
(For `chunk_size = 0`, Python's `range` raises `ValueError`; the claims only
concern `chunk_size ≥ 1`.) -/
def chunk_list {α : Type} (lst : List α) (chunk_size : Nat) : List (List α) :=
  (rangeStep 0 lst.length chunk_size).map (fun i => pySlice lst i chunk_size)

/-! ## `clean_filename` (`python_helpers/utilities`) -/

/-- The character class of the regex `r'[<>:"/\\|?*]'`. -/
def invalidChars : List Char := ['<', '>', ':', '"', '/', '\\', '|', '?', '*']

/-- `re.sub(r'[<>:"/\\|?*]', replacement, filename)` at the character-list
level: every matched character is replaced by the replacement string. -/
def reSubInvalidChars (replacement : List Char) (cs : List Char) : List Char :=
  (cs.map (fun c => if c ∈ invalidChars then replacement else [c])).flatten

/-- `re.sub(r'[<>:"/\\|?*]', replacement, filename)`. -/
def reSubInvalid (replacement : String) (filename : String) : String :=
  String.mk (reSubInvalidChars replacement.toList filename.toList)

/-- `clean_filename`: replace invalid characters, strip leading/trailing
dots and spaces, and fall back to `'unnamed_file'` when nothing is left. -/
def clean_filename (filename : String) (replacement : String := "_") : String :=
  let cleaned := reSubInvalid replacement filename
  let cleaned := pyStrip ['.', ' '] cleaned
  if cleaned = "" then "unnamed_file" else cleaned

/-! ## JSON documents and Python values (`read_json` / `write_json`)

`write_json` serializes a Python value with `json.dump` and `read_json`
parses a file with `json.load`.  Numbers are restricted to integers (the
claims concern plain dictionaries; `json.load` parses integer literals
back to Python `int` exactly; floats are out of scope of the model).
-/

/-- A JSON document. -/
inductive Json where
  | null
  | bool (b : Bool)
  | int (n : Int)
  | str (s : String)
  | arr (elems : List Json)
  | obj (members : List (String × Json))

/-- A Python value in the fragment `json.dump` and `json.load` handle.
Dictionaries are association lists in insertion order, as Python dicts
are; a key can be any hashable value (`None`, `bool`, `int`, `str` keys
are serializable, container keys raise `TypeError`). -/
inductive PyVal where
  | none
  | bool (b : Bool)
  | int (n : Int)
  | str (s : String)
  | list (elems : List PyVal)
  | dict (entries : List (PyVal × PyVal))

/-- `json.dump`'s coercion of a dictionary key to a JSON object key:
`str` keys are kept, `int`/`bool`/`None` keys are stringified the JSON
way, any other key raises `TypeError` (`skipkeys` is left at its default
`False`). -/
def dumpKey : PyVal → Option String
  | PyVal.str s => some s
  | PyVal.int n => some (toString n)
  | PyVal.bool true => some "true"
  | PyVal.bool false => some "false"
  | PyVal.none => some "null"
  | _ => Option.none

mutual

/-- `json.dump(data, f, indent=2, ensure_ascii=False)`: the JSON document
written, or `none` when serialization raises `TypeError`.  (Indentation
and ASCII escaping only affect the textual rendering, not the document.) -/
def dumps : PyVal → Option Json
  | PyVal.none => some Json.null
  | PyVal.bool b => some (Json.bool b)
  | PyVal.int n => some (Json.int n)
  | PyVal.str s => some (Json.str s)
  | PyVal.list xs =>
    match dumpsList xs with
    | some js => some (Json.arr js)
    | Option.none => Option.none
  | PyVal.dict kvs =>
    match dumpsObj kvs with
    | some ms => some (Json.obj ms)
    | Option.none => Option.none

/-- Serialization of the elements of a Python list. -/
def dumpsList : List PyVal → Option (List Json)
  | [] => some []
  | x :: xs =>
    match dumps x, dumpsList xs with
    | some j, some js => some (j :: js)
    | _, _ => Option.none

/-- Serialization of the entries of a Python dict, coercing each key. -/
def dumpsObj : List (PyVal × PyVal) → Option (List (String × Json))
  | [] => some []
  | (k, v) :: rest =>
    match dumpKey k, dumps v, dumpsObj rest with
    | some ks, some jv, some ms => some ((ks, jv) :: ms)
    | _, _, _ => Option.none

end

/-- Python dict assignment `d[k] = v` on an association list with string
keys: an existing key keeps its position and gets the new value, a new key
is appended. -/
def insertStrKey (acc : List (String × PyVal)) (k : String) (v : PyVal) :
    List (String × PyVal) :=
  if acc.any (fun kv => decide (kv.1 = k)) then
    acc.map (fun kv => if kv.1 = k then (k, v) else kv)
  else acc ++ [(k, v)]

mutual

/-- `json.load`: the Python value a JSON document parses to. -/
def loads : Json → PyVal
  | Json.null => PyVal.none
  | Json.bool b => PyVal.bool b
  | Json.int n => PyVal.int n
  | Json.str s => PyVal.str s
  | Json.arr js => PyVal.list (loadsList js)
  | Json.obj ms =>
    PyVal.dict ((loadsObjAcc ms []).map (fun kv => (PyVal.str kv.1, kv.2)))

/-- Parsing of the elements of a JSON array. -/
def loadsList : List Json → List PyVal
  | [] => []
  | j :: js => loads j :: loadsList js

/-- Parsing of a JSON object: build the dict by inserting the members in
order, so a later duplicate key overwrites an earlier one. -/
def loadsObjAcc : List (String × Json) → List (String × PyVal) → List (String × PyVal)
  | [], acc => acc
  | (k, j) :: ms, acc => loadsObjAcc ms (insertStrKey acc k (loads j))

end

/-- The string keys of a Python dict's entries (non-string keys skipped). -/
def keyStrings (kvs : List (PyVal × PyVal)) : List String :=
  kvs.filterMap (fun kv =>
    match kv.1 with
    | PyVal.str s => some s
    | _ => Option.none)

/-- No string occurs twice in the list. -/
def nodupKeys : List String → Bool
  | [] => true
  | s :: rest => (!rest.contains s) && nodupKeys rest

mutual

/-- A Python value all of whose dictionaries have `str` keys only and no
duplicate keys (a real Python `dict` cannot hold two equal keys). -/
def strKeyed : PyVal → Bool
  | PyVal.none => true
  | PyVal.bool _ => true
  | PyVal.int _ => true
  | PyVal.str _ => true
  | PyVal.list xs => strKeyedList xs
  | PyVal.dict kvs => strKeyedObj kvs && nodupKeys (keyStrings kvs)

/-- `strKeyed` on the elements of a list. -/
def strKeyedList : List PyVal → Bool
  | [] => true
  | x :: xs => strKeyed x && strKeyedList xs

/-- Every key is a `str` and every value is `strKeyed`. -/
def strKeyedObj : List (PyVal × PyVal) → Bool
  | [] => true
  | (k, v) :: rest =>
    (match k with
     | PyVal.str _ => true
     | _ => false) && strKeyed v && strKeyedObj rest

end

/-! ## I/O-boundary helpers (`file_ops`, `data_processing`, `web_scraping`)

Each helper is embedded with the outcome of its underlying I/O operation
passed explicitly: `Except.error e` models the operation raising the
exception `e`, `Except.ok` its success.
-/

/-- `read_json`: `json.load` of the opened file; `None` on any exception
(missing file, unreadable file, invalid JSON). -/
def read_json (io : Except String Json) : Option PyVal :=
  match io with
  | Except.ok j => some (loads j)
  | Except.error _ => Option.none

/-- `write_json`: returns the Python return value together with the JSON
document the file holds after a completed dump.  `io` is the outcome of
`ensure_directory` + `open`; a `TypeError` from a non-serializable value
is `dumps` returning `none`.  Every exception is caught and yields
`False`. -/
def write_json (data : PyVal) (io : Except String Unit) : Bool × Option Json :=
  match io with
  | Except.error _ => (false, Option.none)
  | Except.ok _ =>
    match dumps data with
    | some j => (true, some j)
    | Option.none => (false, Option.none)

/-- `get_file_info`: `None` when the path does not exist (by design) and
when `stat` raises; the info dictionary otherwise. -/
def get_file_info {Info : Type} (pathExists : Bool) (io : Except String Info) :
    Option Info :=
  if pathExists then
    match io with
    | Except.ok i => some i
    | Except.error _ => Option.none
  else Option.none

/-- `safe_copy`: `False` when the source is missing or the destination
exists without `overwrite`; otherwise `True` iff creating the directory
and `shutil.copy2` raise no exception (any exception is caught). -/
def safe_copy (sourceExists destExists overwrite : Bool)
    (io : Except String Unit) : Bool :=
  if !sourceExists then false
  else if destExists && !overwrite then false
  else
    match io with
    | Except.ok _ => true
    | Except.error _ => false

/-- `csv_to_dict`: the parsed rows, or the empty list when opening or
parsing raises. -/
def csv_to_dict {Row : Type} (io : Except String (List Row)) : List Row :=
  match io with
  | Except.ok rows => rows
  | Except.error _ => []

/-- `dict_to_csv`: `False` on empty data (no file is touched); otherwise
`True` iff writing raises no exception. -/
def dict_to_csv {Row : Type} (data : List Row) (io : Except String Unit) : Bool :=
  if data.isEmpty then false
  else
    match io with
    | Except.ok _ => true
    | Except.error _ => false

/-- The retry loop of `safe_request`: `outcomes attempt` is the result of
`requests.get` + `raise_for_status` on that attempt; the first success is
returned, every exception is caught, and after the last failed attempt
(or when `retries = 0`, where the loop body never runs) the result is
`None`. -/
def safeRequestLoop {Resp : Type} (outcomes : Nat → Except String Resp) :
    Nat → Nat → Option Resp
  | 0, _ => Option.none
  | fuel + 1, attempt =>
    match outcomes attempt with
    | Except.ok r => some r
    | Except.error _ => safeRequestLoop outcomes fuel (attempt + 1)

/-- `safe_request`: run the retry loop from attempt 0. -/
def safe_request {Resp : Type} (retries : Nat)
    (outcomes : Nat → Except String Resp) : Option Resp :=
  safeRequestLoop outcomes retries 0

/-- `download_file`: `False` when `safe_request` returned `None`;
otherwise `True` iff opening and writing the local file raise no
exception (any exception is caught). -/
def download_file {Resp : Type} (requestResult : Option Resp)
    (io : Except String Unit) : Bool :=
  match requestResult with
  | some _ =>
    match io with
    | Except.ok _ => true
    | Except.error _ => false
  | Option.none => false

/-! ## Lemmas about Python `strip` -/

/-- The left end of a double-ended strip is already left-stripped. -/
theorem dropWhile_rdropWhile_dropWhile {α : Type} (p : α → Bool) (l : List α) :
    List.dropWhile p (List.rdropWhile p (List.dropWhile p l)) =
      List.rdropWhile p (List.dropWhile p l) := by
  set m := List.dropWhile p l with hm
  obtain ⟨t, ht⟩ := List.rdropWhile_prefix p m
  cases hr : List.rdropWhile p m with
  | nil => simp
  | cons a r' =>
    have hmm : List.dropWhile p m = m := by
      rw [hm]; exact List.dropWhile_idempotent p l
    rw [hr] at ht
    have hpa : ¬ p a := by
      rw [← ht] at hmm
      intro hpa
      rw [List.cons_append, List.dropWhile_cons_of_pos hpa] at hmm
      have hle : (List.dropWhile p (r' ++ t)).length ≤ (r' ++ t).length :=
        (List.dropWhile_suffix p).length_le
      have := congrArg List.length hmm
      simp only [List.length_cons] at this
      omega
    simp [List.dropWhile_cons, hpa]

/-- `pyStrip` is idempotent. -/
theorem pyStrip_idem (chars : List Char) (s : String) :
    pyStrip chars (pyStrip chars s) = pyStrip chars s := by
  unfold pyStrip
  congr 1
  show List.rdropWhile _ (List.dropWhile _ (List.rdropWhile _ (List.dropWhile _ s.toList))) = _
  rw [dropWhile_rdropWhile_dropWhile, List.rdropWhile_idempotent]

/-- A list is its right-stripped part followed by the stripped suffix. -/
theorem rdropWhile_append_rtakeWhile {α : Type} (p : α → Bool) (l : List α) :
    List.rdropWhile p l ++ List.rtakeWhile p l = l := by
  unfold List.rdropWhile List.rtakeWhile
  rw [← List.reverse_append, List.takeWhile_append_dropWhile, List.reverse_reverse]

/-! ## Theorems: the pending-reports alert job -/

/-- Helper: every state write of the alert branch is `NORMAL` or `WARNING`. -/
theorem mainStep_write_cases (threshold total : Int) (lastState : String) :
    (mainStep threshold total lastState).stateWrite = none ∨
      (mainStep threshold total lastState).stateWrite = some "NORMAL" ∨
      (mainStep threshold total lastState).stateWrite = some "WARNING" := by
  unfold mainStep
  split
  · right; right; rfl
  · split
    · split
      · right; left; rfl
      · left; rfl
    · left; rfl

/-- Helper: one run preserves the two-state shape of the alert file. -/
theorem runJob_preserves_alertFileOk (threshold : Int) (f : FileState) (total : Int)
    (h : alertFileOk f) : alertFileOk (runJob threshold f total) := by
  unfold runJob
  rcases mainStep_write_cases threshold total (read_last_alert_state f) with hw | hw | hw <;>
    rw [hw]
  · exact h
  · right; left; rfl
  · right; right; rfl

/-- Helper: any run sequence preserves the two-state shape of the alert file. -/
theorem runJobs_preserves_alertFileOk (threshold : Int) (f : FileState) (totals : List Int)
    (h : alertFileOk f) : alertFileOk (runJobs threshold f totals) := by
  induction totals generalizing f with
  | nil => exact h
  | cons t ts ih => exact ih _ (runJob_preserves_alertFileOk threshold f t h)

/-- Helper: reading a well-shaped alert file yields one of the two states. -/
theorem read_alertFileOk (f : FileState) (h : alertFileOk f) :
    read_last_alert_state f = "NORMAL" ∨ read_last_alert_state f = "WARNING" := by
  rcases h with h | h | h <;> subst h
  · left; rfl
  · left; decide
  · right; decide

/-- C1: whenever the database total strictly exceeds the threshold, the run
sends a WARNING email and writes `WARNING` to the state file, whatever the
previously persisted state was. -/
theorem warning_always_sent_and_persisted (threshold : Int) (records : List PendingRecord)
    (lastState : String) (h : (totalCount records : Int) > threshold) :
    mainStep threshold (totalCount records) lastState =
      { emails := ["WARNING"], stateWrite := some "WARNING" } := by
  unfold mainStep
  rw [if_pos h]

/-- Witness for C1 at threshold 50 with a single group of 51 pending reports
and previous state `WARNING` (a repeated warning). -/
theorem warning_always_sent_and_persisted_witness :
    mainStep 50 (totalCount [⟨"tool1", "prod1", 51, "Pending"⟩]) "WARNING" =
      { emails := ["WARNING"], stateWrite := some "WARNING" } :=
  warning_always_sent_and_persisted 50 [⟨"tool1", "prod1", 51, "Pending"⟩] "WARNING" (by decide)

/-- C2: whenever the database total is at or below the threshold and the
previously persisted state is `WARNING`, the run sends exactly one RECOVERY
email and writes `NORMAL` to the state file. -/
theorem recovery_sent_once_and_normal_persisted (threshold : Int)
    (records : List PendingRecord) (lastState : String)
    (h : (totalCount records : Int) ≤ threshold) (hs : lastState = "WARNING") :
    mainStep threshold (totalCount records) lastState =
      { emails := ["RECOVERY"], stateWrite := some "NORMAL" } := by
  unfold mainStep
  rw [if_neg (by omega), if_pos ⟨h, Int.natCast_nonneg _⟩, if_pos hs]

/-- Witness for C2 at threshold 50 with 3 pending reports and previous
state `WARNING`. -/
theorem recovery_sent_once_and_normal_persisted_witness :
    mainStep 50 (totalCount [⟨"tool1", "prod1", 3, "Pending"⟩]) "WARNING" =
      { emails := ["RECOVERY"], stateWrite := some "NORMAL" } :=
  recovery_sent_once_and_normal_persisted 50 [⟨"tool1", "prod1", 3, "Pending"⟩] "WARNING"
    (by decide) rfl

/-- C3: whenever the database total is at or below the threshold and the
previously persisted state is not `WARNING`, the run sends no email,
performs no state write, and leaves the state file unchanged. -/
theorem no_email_no_write_when_normal (threshold : Int) (records : List PendingRecord)
    (f : FileState) (h : (totalCount records : Int) ≤ threshold)
    (hs : read_last_alert_state f ≠ "WARNING") :
    mainStep threshold (totalCount records) (read_last_alert_state f) =
        { emails := [], stateWrite := none } ∧
      runJob threshold f (totalCount records) = f := by
  have hm : mainStep threshold (totalCount records) (read_last_alert_state f) =
      { emails := [], stateWrite := none } := by
    unfold mainStep
    rw [if_neg (by omega), if_pos ⟨h, Int.natCast_nonneg _⟩, if_neg hs]
  exact ⟨hm, by unfold runJob; rw [hm]; rfl⟩

/-- Witness for C3 at threshold 50 with 3 pending reports and a state file
holding `NORMAL`. -/
theorem no_email_no_write_when_normal_witness :
    mainStep 50 (totalCount [⟨"tool1", "prod1", 3, "Pending"⟩])
        (read_last_alert_state (FileState.content "NORMAL")) =
        { emails := [], stateWrite := none } ∧
      runJob 50 (FileState.content "NORMAL") (totalCount [⟨"tool1", "prod1", 3, "Pending"⟩]) =
        FileState.content "NORMAL" :=
  no_email_no_write_when_normal 50 [⟨"tool1", "prod1", 3, "Pending"⟩]
    (FileState.content "NORMAL") (by decide) (by decide)

/-- C4: every state write of the job is the string `NORMAL` or `WARNING`,
and starting from an absent state file or one holding either of these two
strings, after any sequence of runs the file is still absent or holds one
of exactly these two strings, and the state the job reads from it is
always `NORMAL` or `WARNING`. -/
theorem alert_state_machine_invariant :
    (∀ threshold total lastState,
      (mainStep threshold total lastState).stateWrite = none ∨
        (mainStep threshold total lastState).stateWrite = some "NORMAL" ∨
        (mainStep threshold total lastState).stateWrite = some "WARNING") ∧
    ∀ threshold f totals, alertFileOk f →
      alertFileOk (runJobs threshold f totals) ∧
        (read_last_alert_state (runJobs threshold f totals) = "NORMAL" ∨
          read_last_alert_state (runJobs threshold f totals) = "WARNING") := by
  refine ⟨mainStep_write_cases, fun threshold f totals h => ?_⟩
  have hok := runJobs_preserves_alertFileOk threshold f totals h
  exact ⟨hok, read_alertFileOk _ hok⟩

/-- Witness for C4: starting absent, after a run above threshold 50 and a
run back at 0, the file is well-shaped and reads back a valid state. -/
theorem alert_state_machine_invariant_witness :
    alertFileOk (runJobs 50 FileState.absent [60, 0]) ∧
      (read_last_alert_state (runJobs 50 FileState.absent [60, 0]) = "NORMAL" ∨
        read_last_alert_state (runJobs 50 FileState.absent [60, 0]) = "WARNING") :=
  alert_state_machine_invariant.2 50 FileState.absent [60, 0] (Or.inl rfl)

/-- C5: `read_last_alert_state` returns `NORMAL` when the file is absent,
and also when reading raises an exception; on a readable file it returns
the content with surrounding whitespace stripped: the content splits as
whitespace ++ result ++ whitespace, and the result neither starts nor ends
with whitespace. -/
theorem read_last_alert_state_spec :
    read_last_alert_state FileState.absent = "NORMAL" ∧
    read_last_alert_state FileState.unreadable = "NORMAL" ∧
    ∀ s : String,
      (∃ pre suf, s.toList = pre ++ (read_last_alert_state (FileState.content s)).toList ++ suf ∧
        (∀ c ∈ pre, c ∈ pyWhitespace) ∧ (∀ c ∈ suf, c ∈ pyWhitespace)) ∧
      ∀ h : (read_last_alert_state (FileState.content s)).toList ≠ [],
        (read_last_alert_state (FileState.content s)).toList.head h ∉ pyWhitespace ∧
          (read_last_alert_state (FileState.content s)).toList.getLast h ∉ pyWhitespace := by
  refine ⟨rfl, rfl, fun s => ?_⟩
  set p : Char → Bool := fun c => decide (c ∈ pyWhitespace) with hp
  have hr : (read_last_alert_state (FileState.content s)).toList =
      List.rdropWhile p (List.dropWhile p s.toList) := rfl
  constructor
  · refine ⟨List.takeWhile p s.toList, List.rtakeWhile p (List.dropWhile p s.toList),
      ?_, ?_, ?_⟩
    · rw [hr, List.append_assoc, rdropWhile_append_rtakeWhile,
        List.takeWhile_append_dropWhile]
    · intro c hc
      have := List.mem_takeWhile_imp hc
      simpa [hp] using this
    · intro c hc
      have := List.mem_rtakeWhile_imp hc
      simpa [hp] using this
  · intro h
    have h' : List.rdropWhile p (List.dropWhile p s.toList) ≠ [] := h
    refine ⟨?_, ?_⟩
    · show (List.rdropWhile p (List.dropWhile p s.toList)).head h' ∉ pyWhitespace
      have hself := dropWhile_rdropWhile_dropWhile p s.toList
      have h0 : 0 < (List.rdropWhile p (List.dropWhile p s.toList)).length :=
        List.length_pos.mpr h'
      have hnot := (List.dropWhile_eq_self_iff.mp hself) h0
      have hh : ¬ p ((List.rdropWhile p (List.dropWhile p s.toList)).head h') := by
        rw [List.head_eq_getElem_zero h']
        simpa using hnot
      simpa [hp] using hh
    · show (List.rdropWhile p (List.dropWhile p s.toList)).getLast h' ∉ pyWhitespace
      have := List.rdropWhile_last_not p (List.dropWhile p s.toList) h'
      simpa [hp] using this

/-- Witness for C5 on the content `"  WARNING\n"`: the stripped result is
nonempty and its first character is not whitespace. -/
theorem read_last_alert_state_spec_witness :
    (read_last_alert_state (FileState.content "  WARNING\n")).toList.head
      (by decide) ∉ pyWhitespace :=
  ((read_last_alert_state_spec.2.2 "  WARNING\n").2 (by decide)).1

/-! ## Theorems: `retry_operation` -/

/-- Helper: when every attempt fails, the sleeps of the retry loop form the
geometric sequence `delay, delay*backoff, delay*backoff², …`. -/
theorem retryFrom_sleeps_all_fail {E A : Type} (outcomes : Nat → Except E A) (backoff : ℚ)
    (hfail : ∀ i, ∃ e, outcomes i = Except.error e) :
    ∀ (n attempt : Nat) (delay : ℚ),
      (retryFrom outcomes backoff attempt (n + 1) delay).2 =
        (List.range n).map (fun i => delay * backoff ^ i) := by
  intro n
  induction n with
  | zero => intro attempt delay; simp [retryFrom]
  | succ n ih =>
    intro attempt delay
    obtain ⟨e, he⟩ := hfail attempt
    show (retryFrom outcomes backoff attempt (n + 2) delay).2 = _
    rw [retryFrom, he]
    simp only []
    rw [List.range_succ_eq_map, List.map_cons, List.map_map, ih (attempt + 1) (delay * backoff)]
    congr 1
    · ring
    · refine List.map_congr_left fun i _ => ?_
      simp only [Function.comp]
      rw [pow_succ]
      ring

/-- C6 (amended): when every attempt of `retry_operation` fails, the waits
between consecutive attempts form the geometric sequence
`delay * backoff ^ i` for `i < max_attempts - 1`; the delay is fixed only
when `backoff = 1`. -/
theorem retry_operation_backoff_geometric {E A : Type} (outcomes : Nat → Except E A)
    (hfail : ∀ i, ∃ e, outcomes i = Except.error e)
    (max_attempts : Nat) (delay backoff : ℚ) :
    (retry_operation outcomes max_attempts delay backoff).2 =
      (List.range (max_attempts - 1)).map (fun i => delay * backoff ^ i) := by
  cases max_attempts with
  | zero => simp [retry_operation, retryFrom]
  | succ n =>
    simpa using retryFrom_sleeps_all_fail outcomes backoff hfail n 0 delay

/-- Witness for C6's amended theorem: three failing attempts with initial
delay 1 and backoff 2. -/
theorem retry_operation_backoff_geometric_witness :
    (retry_operation (fun _ => (Except.error "e" : Except String Unit)) 3 1 2).2 =
      (List.range (3 - 1)).map (fun i => (1 : ℚ) * 2 ^ i) :=
  retry_operation_backoff_geometric _ (fun _ => ⟨"e", rfl⟩) 3 1 2

/-- C6 counterexample: with `max_attempts = 3`, `delay = 1`, `backoff = 2`
(the default backoff) and every attempt failing, the two waits are 1 and 2
seconds — the wait between consecutive failed attempts is not a fixed
delay independent of the attempt number. -/
theorem retry_operation_not_fixed_delay :
    (retry_operation (fun _ => (Except.error "e" : Except String Unit)) 3 1 2).2 = [1, 2] ∧
      ¬ ∀ d₁ ∈ (retry_operation (fun _ => (Except.error "e" : Except String Unit)) 3 1 2).2,
          ∀ d₂ ∈ (retry_operation (fun _ => (Except.error "e" : Except String Unit)) 3 1 2).2,
            d₁ = d₂ := by
  have h : (retry_operation (fun _ => (Except.error "e" : Except String Unit)) 3 1 2).2 =
      [1, 2] := by
    have hg := retryFrom_sleeps_all_fail (fun _ => (Except.error "e" : Except String Unit)) 2
      (fun _ => ⟨"e", rfl⟩) 2 0 1
    show (retryFrom (fun _ => (Except.error "e" : Except String Unit)) 2 0 (2 + 1) 1).2 = [1, 2]
    rw [hg]
    norm_num [List.range_succ]
  refine ⟨h, fun hall => ?_⟩
  have h1 : (1 : ℚ) ∈
      (retry_operation (fun _ => (Except.error "e" : Except String Unit)) 3 1 2).2 := by
    rw [h]; simp
  have h2 : (2 : ℚ) ∈
      (retry_operation (fun _ => (Except.error "e" : Except String Unit)) 3 1 2).2 := by
    rw [h]; simp
  have := hall 1 h1 2 h2
  norm_num at this

/-! ## Theorems: `chunk_list` -/

/-- Helper: `range` is empty once the start is at or past the stop. -/
theorem rangeStepAux_stop (step fuel start stop : Nat) (h : ¬ start < stop) :
    rangeStepAux step fuel start stop = [] := by
  cases fuel with
  | zero => rfl
  | succ fuel => simp [rangeStepAux, h]

/-- Helper: the fuel is irrelevant once it covers the distance to the stop. -/
theorem rangeStepAux_fuel (step : Nat) (hstep : 1 ≤ step) :
    ∀ (fuel fuel' start stop : Nat), stop - start ≤ fuel → stop - start ≤ fuel' →
      rangeStepAux step fuel start stop = rangeStepAux step fuel' start stop := by
  intro fuel
  induction fuel with
  | zero =>
    intro fuel' start stop h h'
    have hlt : ¬ start < stop := by omega
    rw [rangeStepAux_stop _ _ _ _ hlt, rangeStepAux_stop _ _ _ _ hlt]
  | succ fuel ih =>
    intro fuel' start stop h h'
    by_cases hlt : start < stop
    · cases fuel' with
      | zero => omega
      | succ fuel' =>
        simp only [rangeStepAux, if_pos hlt]
        congr 1
        exact ih fuel' (start + step) stop (by omega) (by omega)
    · rw [rangeStepAux_stop _ _ _ _ hlt, rangeStepAux_stop _ _ _ _ hlt]

/-- Helper: shifting start and stop by `d` shifts every range element by `d`. -/
theorem rangeStepAux_shift (step d : Nat) :
    ∀ (fuel start stop : Nat),
      rangeStepAux step fuel (start + d) (stop + d) =
        (rangeStepAux step fuel start stop).map (fun i => i + d) := by
  intro fuel
  induction fuel with
  | zero => intro start stop; rfl
  | succ fuel ih =>
    intro start stop
    by_cases hlt : start < stop
    · simp only [rangeStepAux, if_pos (show start + d < stop + d by omega), if_pos hlt,
        List.map_cons]
      rw [show start + d + step = start + step + d by omega, ih]
    · simp only [rangeStepAux, if_neg (show ¬ start + d < stop + d by omega), if_neg hlt,
        List.map_nil]

/-- Helper: for a positive chunk size and a nonempty list, `chunk_list`
peels off the first chunk. -/
theorem chunk_list_cons {α : Type} (lst : List α) (k : Nat) (hk : 1 ≤ k)
    (hne : lst ≠ []) :
    chunk_list lst k = lst.take k :: chunk_list (lst.drop k) k := by
  have hn : 0 < lst.length := List.length_pos.mpr hne
  obtain ⟨m, hm⟩ : ∃ m, lst.length = m + 1 := ⟨lst.length - 1, by omega⟩
  unfold chunk_list rangeStep
  rw [hm]
  simp only [rangeStepAux, if_pos (show 0 < m + 1 by omega), List.map_cons, Nat.zero_add]
  congr 1
  by_cases hkn : k < lst.length
  · have hk1 : (0 : Nat) + k = k := by omega
    have hk2 : (m + 1 - k) + k = m + 1 := by omega
    have hshift := rangeStepAux_shift k k m 0 (m + 1 - k)
    rw [hk1, hk2] at hshift
    rw [hshift, rangeStepAux_fuel k hk m (m + 1 - k) 0 (m + 1 - k) (by omega) (by omega),
      List.length_drop, hm]
    show _ = (rangeStepAux k (m + 1 - k) 0 (m + 1 - k)).map
      (fun i => pySlice (lst.drop k) i k)
    rw [List.map_map]
    refine List.map_congr_left fun i _ => ?_
    show pySlice lst (i + k) k = pySlice (lst.drop k) i k
    unfold pySlice
    rw [List.drop_drop, Nat.add_comm k i]
  · rw [rangeStepAux_stop _ _ _ _ (by omega), List.map_nil,
      List.drop_eq_nil_of_le (by omega)]
    rfl

/-- C9: for every chunk size ≥ 1, concatenating the chunks of `chunk_list`
in order restores the original list; every chunk except possibly the last
has length exactly `chunk_size`; and the last chunk is nonempty whenever
the list is nonempty. -/
theorem chunk_list_laws {α : Type} (lst : List α) (chunk_size : Nat)
    (hk : 1 ≤ chunk_size) :
    (chunk_list lst chunk_size).flatten = lst ∧
      (∀ c ∈ (chunk_list lst chunk_size).dropLast, c.length = chunk_size) ∧
      (lst ≠ [] → ∃ c, (chunk_list lst chunk_size).getLast? = some c ∧ c ≠ []) := by
  suffices H : ∀ (n : Nat) (l : List α), l.length = n →
      (chunk_list l chunk_size).flatten = l ∧
        (∀ c ∈ (chunk_list l chunk_size).dropLast, c.length = chunk_size) ∧
        (l ≠ [] → ∃ c, (chunk_list l chunk_size).getLast? = some c ∧ c ≠ []) by
    exact H lst.length lst rfl
  intro n
  induction n using Nat.strong_induction_on with
  | _ n ih =>
    intro l hn
    by_cases hne : l = []
    · subst hne
      exact ⟨rfl, by intro c hc; simp [chunk_list, rangeStep, rangeStepAux] at hc,
        fun h => absurd rfl h⟩
    · have hl : 0 < l.length := List.length_pos.mpr hne
      have hdlt : (l.drop chunk_size).length < n := by
        rw [List.length_drop]; omega
      obtain ⟨hjoin, hlen, hlast⟩ := ih _ hdlt (l.drop chunk_size) rfl
      rw [chunk_list_cons l chunk_size hk hne]
      refine ⟨?_, ?_, ?_⟩
      · rw [List.flatten_cons, hjoin, List.take_append_drop]
      · intro c hc
        by_cases hd : l.drop chunk_size = []
        · rw [hd] at hc
          simp [chunk_list, rangeStep, rangeStepAux] at hc
        · have hcne : chunk_list (l.drop chunk_size) chunk_size ≠ [] := by
            obtain ⟨c', hc', _⟩ := hlast hd
            intro hnil
            rw [hnil] at hc'
            simp at hc'
          rw [List.dropLast_cons_of_ne_nil hcne] at hc
          rcases List.mem_cons.mp hc with rfl | hc
          · have hkn : chunk_size < l.length := by
              by_contra hge
              exact hd (List.drop_eq_nil_of_le (by omega))
            rw [List.length_take]
            omega
          · exact hlen c hc
      · intro _
        by_cases hd : l.drop chunk_size = []
        · rw [hd]
          refine ⟨l.take chunk_size, rfl, fun htake => ?_⟩
          rcases List.take_eq_nil_iff.mp htake with h0 | h0
          · omega
          · exact hne h0
        · obtain ⟨c, hc, hcne'⟩ := hlast hd
          refine ⟨c, ?_, hcne'⟩
          cases hcl : chunk_list (l.drop chunk_size) chunk_size with
          | nil => rw [hcl] at hc; simp at hc
          | cons b bs =>
            rw [hcl] at hc
            rw [List.getLast?_cons_cons, hc]

/-- Witness for C9 on `[1, 2, 3, 4, 5]` with chunk size 2. -/
theorem chunk_list_laws_witness :
    (1 ≤ 2) ∧
      ((chunk_list [1, 2, 3, 4, 5] 2).flatten = [1, 2, 3, 4, 5] ∧
        (∀ c ∈ (chunk_list [1, 2, 3, 4, 5] 2).dropLast, c.length = 2) ∧
        (([1, 2, 3, 4, 5] : List Nat) ≠ [] →
          ∃ c, (chunk_list [1, 2, 3, 4, 5] 2).getLast? = some c ∧ c ≠ [])) :=
  ⟨by decide, chunk_list_laws [1, 2, 3, 4, 5] 2 (by decide)⟩

/-! ## Theorems: `clean_filename` -/

/-- Helper: if no character of the replacement is in the regex class, no
character of the substitution result is either. -/
theorem mem_reSubInvalidChars {repl : List Char} (cs : List Char)
    (hrepl : ∀ r ∈ repl, r ∉ invalidChars) :
    ∀ c ∈ reSubInvalidChars repl cs, c ∉ invalidChars := by
  intro c hc
  unfold reSubInvalidChars at hc
  rw [List.mem_flatten] at hc
  obtain ⟨l, hl, hcl⟩ := hc
  rw [List.mem_map] at hl
  obtain ⟨x, hx, rfl⟩ := hl
  by_cases hinv : x ∈ invalidChars
  · rw [if_pos hinv] at hcl
    exact hrepl c hcl
  · rw [if_neg hinv] at hcl
    have := List.mem_singleton.mp hcl
    subst this
    exact hinv

/-- Helper: substitution is the identity on strings without characters of
the regex class. -/
theorem reSubInvalidChars_id {repl : List Char} :
    ∀ {cs : List Char}, (∀ c ∈ cs, c ∉ invalidChars) →
      reSubInvalidChars repl cs = cs := by
  intro cs
  induction cs with
  | nil => intro _; rfl
  | cons a t ih =>
    intro h
    unfold reSubInvalidChars
    rw [List.map_cons, List.flatten_cons, if_neg (h a (List.mem_cons_self a t))]
    show [a] ++ reSubInvalidChars repl t = a :: t
    rw [ih fun c hc => h c (List.mem_cons_of_mem a hc)]
    rfl

/-- Helper: rebuilding a string from its characters is the identity. -/
theorem mk_toList (s : String) : String.mk s.toList = s := rfl

/-- C10: `clean_filename` never returns the empty string (it falls back to
`'unnamed_file'` when cleaning leaves nothing), and with the default
replacement `'_'` it is idempotent. -/
theorem clean_filename_nonempty_idem :
    (∀ filename replacement, clean_filename filename replacement ≠ "") ∧
      ∀ filename, clean_filename (clean_filename filename) = clean_filename filename := by
  constructor
  · intro filename replacement
    show (if pyStrip ['.', ' '] (reSubInvalid replacement filename) = "" then "unnamed_file"
      else pyStrip ['.', ' '] (reSubInvalid replacement filename)) ≠ ""
    by_cases h : pyStrip ['.', ' '] (reSubInvalid replacement filename) = ""
    · rw [if_pos h]; decide
    · rw [if_neg h]; exact h
  · intro filename
    by_cases h : pyStrip ['.', ' '] (reSubInvalid "_" filename) = ""
    · have h1 : clean_filename filename = "unnamed_file" := by
        show (if pyStrip ['.', ' '] (reSubInvalid "_" filename) = "" then "unnamed_file"
          else pyStrip ['.', ' '] (reSubInvalid "_" filename)) = "unnamed_file"
        rw [if_pos h]
      rw [h1]
      decide
    · have h1 : clean_filename filename = pyStrip ['.', ' '] (reSubInvalid "_" filename) := by
        show (if pyStrip ['.', ' '] (reSubInvalid "_" filename) = "" then "unnamed_file"
          else pyStrip ['.', ' '] (reSubInvalid "_" filename)) = _
        rw [if_neg h]
      rw [h1]
      set t := pyStrip ['.', ' '] (reSubInvalid "_" filename) with ht
      have hnoinv : ∀ c ∈ t.toList, c ∉ invalidChars := by
        intro c hc
        have hc1 : c ∈ List.dropWhile (fun c => decide (c ∈ (['.', ' '] : List Char)))
            (reSubInvalid "_" filename).toList :=
          (List.rdropWhile_prefix _ _).sublist.subset hc
        have hc2 : c ∈ (reSubInvalid "_" filename).toList :=
          (List.dropWhile_suffix _).sublist.subset hc1
        exact mem_reSubInvalidChars filename.toList (by decide) c hc2
      have hres : reSubInvalid "_" t = t := by
        unfold reSubInvalid
        rw [reSubInvalidChars_id hnoinv]
        exact mk_toList t
      have hstrip : pyStrip ['.', ' '] t = t := by
        rw [ht]
        exact pyStrip_idem _ _
      show (if pyStrip ['.', ' '] (reSubInvalid "_" t) = "" then "unnamed_file"
        else pyStrip ['.', ' '] (reSubInvalid "_" t)) = t
      rw [hres, hstrip, if_neg h]

/-! ## Theorems: I/O-boundary helpers -/

/-- Helper: when every attempt raises, the `safe_request` loop ends in
`None` from any starting attempt. -/
theorem safeRequestLoop_all_fail {Resp : Type} (errs : Nat → String) :
    ∀ fuel attempt,
      safeRequestLoop (fun i => (Except.error (errs i) : Except String Resp))
        fuel attempt = Option.none := by
  intro fuel
  induction fuel with
  | zero => intro attempt; rfl
  | succ fuel ih => intro attempt; exact ih (attempt + 1)

/-- C7: every I/O-boundary helper catches an exception of its underlying
I/O operation and returns its sentinel value (`None`, `False`, or an empty
collection); no exception propagates to the caller. -/
theorem io_helpers_sentinel_on_exception :
    (∀ e : String, read_json (Except.error e) = Option.none) ∧
    (∀ (data : PyVal) (e : String),
      write_json data (Except.error e) = (false, Option.none)) ∧
    (∀ (Info : Type) (pathExists : Bool) (e : String),
      @get_file_info Info pathExists (Except.error e) = Option.none) ∧
    (∀ (sourceExists destExists overwrite : Bool) (e : String),
      safe_copy sourceExists destExists overwrite (Except.error e) = false) ∧
    (∀ (Row : Type) (e : String), @csv_to_dict Row (Except.error e) = []) ∧
    (∀ (Row : Type) (data : List Row) (e : String),
      dict_to_csv data (Except.error e) = false) ∧
    (∀ (Resp : Type) (retries : Nat) (errs : Nat → String),
      @safe_request Resp retries (fun i => Except.error (errs i)) = Option.none) ∧
    ∀ (Resp : Type) (r : Option Resp) (e : String),
      download_file r (Except.error e) = false := by
  refine ⟨fun e => rfl, fun data e => rfl, ?_, ?_, fun Row e => rfl, ?_, ?_, ?_⟩
  · intro Info pathExists e
    cases pathExists <;> rfl
  · intro sourceExists destExists overwrite e
    cases sourceExists <;> cases destExists <;> cases overwrite <;> rfl
  · intro Row data e
    cases data <;> rfl
  · intro Resp retries errs
    exact safeRequestLoop_all_fail errs retries 0
  · intro Resp r e
    cases r <;> rfl

/-! ## Theorems: the JSON round-trip -/

/-- Helper: inserting a key absent from the dict appends the pair. -/
theorem insertStrKey_fresh (acc : List (String × PyVal)) (k : String) (v : PyVal)
    (h : ∀ kv ∈ acc, kv.1 ≠ k) : insertStrKey acc k v = acc ++ [(k, v)] := by
  unfold insertStrKey
  rw [if_neg]
  intro hany
  rw [List.any_eq_true] at hany
  obtain ⟨kv, hkv, hkeq⟩ := hany
  exact h kv hkv (of_decide_eq_true hkeq)

/-- Helper: loading object members with pairwise distinct keys, none of
which occurs in the accumulator, appends the loaded pairs in order. -/
theorem loadsObjAcc_append :
    ∀ (ms : List (String × Json)) (acc : List (String × PyVal)),
      (ms.map Prod.fst).Nodup →
      (∀ k ∈ ms.map Prod.fst, ∀ kv ∈ acc, kv.1 ≠ k) →
      loadsObjAcc ms acc = acc ++ ms.map (fun kj => (kj.1, loads kj.2)) := by
  intro ms
  induction ms with
  | nil => intro acc _ _; simp [loadsObjAcc]
  | cons kj ms ih =>
    intro acc hnd hdisj
    obtain ⟨k, j⟩ := kj
    rw [List.map_cons] at hnd hdisj
    show loadsObjAcc ms (insertStrKey acc k (loads j)) = _
    rw [insertStrKey_fresh acc k (loads j) (hdisj k (List.mem_cons_self _ _))]
    rw [ih (acc ++ [(k, loads j)]) (List.nodup_cons.mp hnd).2 ?_]
    · simp
    intro k' hk' kv hkv
    rcases List.mem_append.mp hkv with hkv | hkv
    · exact hdisj k' (List.mem_cons_of_mem _ hk') kv hkv
    · have hkveq := List.mem_singleton.mp hkv
      subst hkveq
      intro hkk
      exact (List.nodup_cons.mp hnd).1 (hkk ▸ hk')

/-- Helper: `nodupKeys` decides `List.Nodup`. -/
theorem nodupKeys_iff : ∀ l : List String, nodupKeys l = true ↔ l.Nodup := by
  intro l
  induction l with
  | nil => simp [nodupKeys]
  | cons s rest ih =>
    simp [nodupKeys, List.nodup_cons, ih, List.contains]

/-- Helper: the elements of a list of round-trippable values round-trip
through `dumpsList`/`loadsList`. -/
theorem dumpsList_roundtrip :
    ∀ xs : List PyVal,
      (∀ x ∈ xs, strKeyed x = true → ∀ j, dumps x = some j → loads j = x) →
      strKeyedList xs = true →
      ∀ js, dumpsList xs = some js → loadsList js = xs := by
  intro xs
  induction xs with
  | nil =>
    intro _ _ js hjs
    simp only [dumpsList, Option.some.injEq] at hjs
    subst hjs
    rfl
  | cons x xs ih =>
    intro helem hsk js hjs
    simp only [strKeyedList, Bool.and_eq_true] at hsk
    cases hx : dumps x with
    | none => rw [dumpsList, hx] at hjs; cases hjs
    | some jx =>
      cases hxs : dumpsList xs with
      | none => rw [dumpsList, hx, hxs] at hjs; cases hjs
      | some jxs =>
        rw [dumpsList, hx, hxs, Option.some.injEq] at hjs
        subst hjs
        show loads jx :: loadsList jxs = x :: xs
        rw [helem x (List.mem_cons_self _ _) hsk.1 jx hx,
          ih (fun y hy => helem y (List.mem_cons_of_mem _ hy)) hsk.2 jxs hxs]

/-- Helper: the entries of a string-keyed dict with round-trippable values
serialize to members that parse back to the same entries, with the same
keys in the same order. -/
theorem dumpsObj_roundtrip :
    ∀ kvs : List (PyVal × PyVal),
      (∀ kv ∈ kvs, strKeyed kv.2 = true → ∀ j, dumps kv.2 = some j → loads j = kv.2) →
      strKeyedObj kvs = true →
      ∀ ms, dumpsObj kvs = some ms →
        ms.map (fun kj => (PyVal.str kj.1, loads kj.2)) = kvs ∧
          ms.map Prod.fst = keyStrings kvs := by
  intro kvs
  induction kvs with
  | nil =>
    intro _ _ ms hms
    simp only [dumpsObj, Option.some.injEq] at hms
    subst hms
    exact ⟨rfl, rfl⟩
  | cons kv rest ih =>
    intro helem hsk ms hms
    obtain ⟨k, v⟩ := kv
    simp only [strKeyedObj, Bool.and_eq_true] at hsk
    obtain ⟨⟨hkstr, hv⟩, hrest⟩ := hsk
    obtain ⟨s, hks⟩ : ∃ s, k = PyVal.str s := by
      cases k <;> simp_all
    subst hks
    cases hjv : dumps v with
    | none => rw [dumpsObj, hjv] at hms; cases hms
    | some jv =>
      cases hrest' : dumpsObj rest with
      | none => rw [dumpsObj, hjv, hrest'] at hms; cases hms
      | some ms' =>
        rw [dumpsObj] at hms
        rw [hjv, hrest'] at hms
        simp only [dumpKey, Option.some.injEq] at hms
        subst hms
        obtain ⟨hmap, hkeys⟩ :=
          ih (fun y hy => helem y (List.mem_cons_of_mem _ hy)) hrest ms' hrest'
        constructor
        · rw [List.map_cons, hmap,
            helem (PyVal.str s, v) (List.mem_cons_self _ _) hv jv hjv]
        · rw [List.map_cons, hkeys]
          rfl

/-- Helper: a string-keyed value that `json.dump` serializes parses back
to itself (by strong induction on the size of the value). -/
theorem loads_dumps_of_strKeyed :
    ∀ (n : Nat) (v : PyVal), sizeOf v ≤ n → strKeyed v = true →
      ∀ j, dumps v = some j → loads j = v := by
  intro n
  induction n using Nat.strong_induction_on with
  | _ n ih =>
    intro v hsz hsk j hj
    cases v with
    | none =>
      simp only [dumps, Option.some.injEq] at hj
      subst hj; rfl
    | bool b =>
      simp only [dumps, Option.some.injEq] at hj
      subst hj; rfl
    | int m =>
      simp only [dumps, Option.some.injEq] at hj
      subst hj; rfl
    | str s =>
      simp only [dumps, Option.some.injEq] at hj
      subst hj; rfl
    | list xs =>
      cases hxs : dumpsList xs with
      | none => rw [dumps, hxs] at hj; cases hj
      | some js =>
        rw [dumps, hxs, Option.some.injEq] at hj
        subst hj
        show PyVal.list (loadsList js) = PyVal.list xs
        rw [dumpsList_roundtrip xs ?_ (by simpa [strKeyed] using hsk) js hxs]
        intro x hx hskx jx hjx
        refine ih (sizeOf x) ?_ x (le_refl _) hskx jx hjx
        have hlt := List.sizeOf_lt_of_mem hx
        have hspec : sizeOf (PyVal.list xs) = 1 + sizeOf xs := by simp
        omega
    | dict kvs =>
      simp only [strKeyed, Bool.and_eq_true] at hsk
      obtain ⟨hobj, hnodup⟩ := hsk
      cases hms : dumpsObj kvs with
      | none => rw [dumps, hms] at hj; cases hj
      | some ms =>
        rw [dumps, hms, Option.some.injEq] at hj
        subst hj
        show PyVal.dict ((loadsObjAcc ms []).map (fun kv => (PyVal.str kv.1, kv.2))) =
          PyVal.dict kvs
        have helem : ∀ kv ∈ kvs, strKeyed kv.2 = true →
            ∀ j, dumps kv.2 = some j → loads j = kv.2 := by
          intro kv hkv hskv jv hjv
          refine ih (sizeOf kv.2) ?_ kv.2 (le_refl _) hskv jv hjv
          have hlt := List.sizeOf_lt_of_mem hkv
          have hspec : sizeOf (PyVal.dict kvs) = 1 + sizeOf kvs := by simp
          obtain ⟨a, b⟩ := kv
          have : sizeOf ((a, b) : PyVal × PyVal) = 1 + sizeOf a + sizeOf b := by simp
          simp only at hlt ⊢
          omega
        obtain ⟨hmap, hkeys⟩ := dumpsObj_roundtrip kvs helem hobj ms hms
        have hnd : (ms.map Prod.fst).Nodup := by
          rw [hkeys]
          exact (nodupKeys_iff _).mp hnodup
        rw [loadsObjAcc_append ms [] hnd (by intro k _ kv hkv; cases hkv)]
        rw [List.nil_append, List.map_map]
        exact congrArg PyVal.dict hmap

/-- C8 counterexample: the dictionary `{1: "a"}` is JSON-serializable and
`write_json` succeeds on it, but the document written is `{"1": "a"}`,
which reads back with the string key `"1"` in place of the integer key
`1` — not the dictionary that was written. -/
theorem json_roundtrip_counterexample :
    (write_json (PyVal.dict [(PyVal.int 1, PyVal.str "a")]) (Except.ok ())).1 = true ∧
      (write_json (PyVal.dict [(PyVal.int 1, PyVal.str "a")]) (Except.ok ())).2 =
        some (Json.obj [("1", Json.str "a")]) ∧
      read_json (Except.ok (Json.obj [("1", Json.str "a")])) =
        some (PyVal.dict [(PyVal.str "1", PyVal.str "a")]) ∧
      some (PyVal.dict [(PyVal.str "1", PyVal.str "a")]) ≠
        some (PyVal.dict [(PyVal.int 1, PyVal.str "a")]) := by
  refine ⟨rfl, rfl, rfl, ?_⟩
  simp

/-- C8 (amended): the JSON round-trip holds for every value all of whose
dictionaries have string keys (necessarily pairwise distinct, as in a real
Python dict): when `write_json` returns `True` after writing document `j`,
`read_json` of that document returns the value that was written. -/
theorem json_roundtrip_str_keyed (d : PyVal) (h : strKeyed d = true) (j : Json)
    (hw : write_json d (Except.ok ()) = (true, some j)) :
    read_json (Except.ok j) = some d := by
  have hd : dumps d = some j := by
    unfold write_json at hw
    cases hdj : dumps d with
    | none => rw [hdj] at hw; cases hw
    | some j' =>
      rw [hdj] at hw
      simp only [Prod.mk.injEq, Option.some.injEq] at hw
      rw [hw.2]
  show some (loads j) = some d
  rw [loads_dumps_of_strKeyed (sizeOf d) d (le_refl _) h j hd]

/-- Witness for C8's amended theorem on `{"name": "test", "value": 42}`. -/
theorem json_roundtrip_str_keyed_witness :
    strKeyed (PyVal.dict [(PyVal.str "name", PyVal.str "test"),
        (PyVal.str "value", PyVal.int 42)]) = true ∧
      read_json (Except.ok (Json.obj [("name", Json.str "test"),
        ("value", Json.int 42)])) =
        some (PyVal.dict [(PyVal.str "name", PyVal.str "test"),
          (PyVal.str "value", PyVal.int 42)]) :=
  ⟨rfl, json_roundtrip_str_keyed
    (PyVal.dict [(PyVal.str "name", PyVal.str "test"),
      (PyVal.str "value", PyVal.int 42)]) rfl
    (Json.obj [("name", Json.str "test"), ("value", Json.int 42)]) rfl⟩

end PythonHelper
